import Mathlib

/-!
Verification of the Softlight browser-automation agent.

Shallow embedding of the repository's pure decision logic:

* text normalization used for element matching
  (`normalize_text_for_matching` in `src/main.py`, and the matching JS
  `normalize` helpers embedded in `click_text_anywhere` and the fill script);
* the DOM-snapshot differ (`DOMInspector.diff_snapshots`, called from
  `src/main.py` but whose definition is not part of the sources; modelled
  from the specification);
* the defensive JSON extractor (`StateDetector._clean_json_like`, likewise
  called from `src/main.py` but not defined in the sources; modelled from
  the specification);
* the login-check decision logic of `main` (`src/main.py`);
* the per-step click/fill dispatch of the control loop with its
  loop-detection guard (`src/main.py`), and the fill-value selection;
* the free-text element resolvers (the full-DOM fallback script in
  `click_text_anywhere` of `src/main.py`, and `_click_via_text` of
  `src/agent/browser_controller.py`);
* the interactive-element extractor
  (`DOMInspector.extract_interactive_elements` in `src/utils/dom_inspector.py`);
* `find_element`, `click`, `fill` and `execute_action` of
  `src/agent/browser_controller.py`, with the browser driver's behaviour
  (per-strategy lookup outcomes, dispatch outcomes, raised exceptions)
  made explicit as data.

Machine text is modelled as `List Char` / `String`; Python and JavaScript
exceptions are modelled as explicit outcome values, so every embedded
operation is a total Lean function.
-/

namespace Softlight

/-! ## Character classes and lower-casing

`re.sub(r'[^a-zA-Z0-9\s]', '', text)` keeps ASCII alphanumerics and the
`\s` class.  Python's `\s` on `str` matches Unicode whitespace; the set is
fixed here by code point.  The JavaScript `\s` class used by the in-page
scripts differs only in code points irrelevant to the theorems below and
gets its own set. -/

/-- Code points matched by Python's `\s` (also stripped by `str.strip()`). -/
def pySpaceNats : List Nat :=
  [32, 9, 10, 13, 11, 12, 28, 29, 30, 31, 133, 160, 5760,
   8192, 8193, 8194, 8195, 8196, 8197, 8198, 8199, 8200, 8201, 8202,
   8232, 8233, 8239, 8287, 12288]

/-- Code points matched by JavaScript's `\s` (used by the in-page scripts). -/
def jsSpaceNats : List Nat :=
  [32, 9, 10, 13, 11, 12, 160, 5760,
   8192, 8193, 8194, 8195, 8196, 8197, 8198, 8199, 8200, 8201, 8202,
   8232, 8233, 8239, 8287, 12288, 65279]

def isPySpace (c : Char) : Bool := decide (c.toNat ∈ pySpaceNats)

def isJsSpace (c : Char) : Bool := decide (c.toNat ∈ jsSpaceNats)

/-- ASCII letters and digits: the characters kept by `[^a-zA-Z0-9\s]`
besides whitespace. -/
def isAsciiAlnum (c : Char) : Bool :=
  decide ((48 ≤ c.toNat ∧ c.toNat ≤ 57) ∨ (65 ≤ c.toNat ∧ c.toNat ≤ 90) ∨
    (97 ≤ c.toNat ∧ c.toNat ≤ 122))

/-- A character surviving `re.sub(r'[^a-zA-Z0-9\s]', '', ...)`, for the
whitespace class `sp`. -/
def keptChar (sp : Char → Bool) (c : Char) : Bool := isAsciiAlnum c || sp c

/-- Lower-casing as applied by `.lower()` / `.toLowerCase()`.  Both are
full-Unicode in the sources, but in the normalization pipeline they are
applied after the `[^a-zA-Z0-9\s]` filter, where all remaining characters
outside the ASCII range `A`-`Z` are fixed points of either; the ASCII
mapping is the faithful model there. -/
def pyToLower (c : Char) : Char :=
  if 65 ≤ c.toNat && c.toNat ≤ 90 then Char.ofNat (c.toNat + 32) else c

/-- `.lower()` / `.toLowerCase()` on a whole string. -/
def lowerStr (s : String) : String := String.mk (s.data.map pyToLower)

/-! ## Normalization pipeline

`normalize_text_for_matching` in `click_text_anywhere` (`src/main.py`):
remove everything but letters, digits and whitespace; collapse whitespace
runs to a single space; strip; lower-case.  The JS `normalize` helpers in
the fallback script and the fill script perform the same four steps with
JavaScript's `\s`. -/

/-- One pass of `re.sub(r'\s+', ' ', ...)`: every maximal whitespace run
becomes one space.  The flag records whether the scanner is inside a run. -/
def collapseWsAux (sp : Char → Bool) : Bool → List Char → List Char
  | _, [] => []
  | inWs, c :: rest =>
    if sp c then
      if inWs then collapseWsAux sp true rest
      else ' ' :: collapseWsAux sp true rest
    else c :: collapseWsAux sp false rest

def collapseWs (sp : Char → Bool) (l : List Char) : List Char :=
  collapseWsAux sp false l

/-- Remove trailing whitespace (the right half of `.strip()` / `.trim()`). -/
def rstripWs (sp : Char → Bool) : List Char → List Char
  | [] => []
  | c :: rest =>
    match rstripWs sp rest with
    | [] => if sp c then [] else [c]
    | r => c :: r

/-- `.strip()` / `.trim()`: drop leading and trailing whitespace. -/
def stripWs (sp : Char → Bool) (l : List Char) : List Char :=
  rstripWs sp (l.dropWhile sp)

/-- The four-step normalization, parameterized by the whitespace class. -/
def normalizeWith (sp : Char → Bool) (l : List Char) : List Char :=
  (stripWs sp (collapseWs sp (l.filter (keptChar sp)))).map pyToLower

/-- Proof-support invariant: no two adjacent whitespace characters. -/
def noDoubleSpace (sp : Char → Bool) : List Char → Bool
  | [] => true
  | [_] => true
  | a :: b :: rest => !(sp a && sp b) && noDoubleSpace sp (b :: rest)

/-- `normalize_text_for_matching` of `src/main.py` (Python `\s`). -/
def normalize_text_for_matching (s : String) : String :=
  String.mk (normalizeWith isPySpace s.data)

/-- The JS `normalize` helper of the in-page scripts (JavaScript `\s`). -/
def jsNormalize (s : String) : String :=
  String.mk (normalizeWith isJsSpace s.data)

/-! ## Generic list/string helpers (Python `in`, `startswith`, `endswith`) -/

/-- `l` begins with `p` (`str.startswith` / JS `startsWith`). -/
def listStarts : List Char → List Char → Bool
  | [], _ => true
  | _ :: _, [] => false
  | a :: as2, b :: bs => a == b && listStarts as2 bs

/-- `needle` occurs contiguously in `hay` (Python `in`, JS `includes`). -/
def hasSub (needle : List Char) : List Char → Bool
  | [] => needle.isEmpty
  | c :: rest => listStarts needle (c :: rest) || hasSub needle rest

/-- `l` ends with `p` (`str.endswith`). -/
def listEnds (p l : List Char) : Bool :=
  decide (p.length ≤ l.length) && listStarts p (l.drop (l.length - p.length))

/-- Python's `needle in hay` on strings. -/
def hasSubStr (needle hay : String) : Bool := hasSub needle.data hay.data

/-! ## C1 — snapshot differ

`DOMInspector.capture_snapshot` and `DOMInspector.diff_snapshots` are
called throughout `src/main.py` but are not defined in the sources (the
`DOMInspector` in `src/utils/dom_inspector.py` has neither method). -/

/-- One interactive element's tracked content: the fields whose change
makes an element "changed" per the specification's Delta. -/
structure SnapElem where
  visibleText : String
  ariaLabel : String
  placeholder : String
deriving DecidableEq

/-- A snapshot: an ordered mapping from fingerprint to element. -/
abbrev Snapshot : Type := List (String × SnapElem)

/-- The differ's report: the new/changed elements, capped at 50, plus the
count of elements omitted by the cap. -/
structure Delta where
  elements : List (String × SnapElem)
  omitted : Nat
deriving DecidableEq

/-- Modelled from the spec: `DOMInspector.diff_snapshots` is called from
`src/main.py` (lines 1083, 1585) but not defined in the sources.  Spec
§4.2: `newOnly = keys(new) − keys(old)`; `changed = {fp ∈ keys(old) ∩
keys(new) : content(old[fp]) ≠ content(new[fp])}`; result = elements for
`newOnly ∪ changed`, capped at a reporting limit of 50 with a count note
for the remainder. -/
def diff_snapshots (old new : Snapshot) : Delta :=
  let newOnly := new.filter (fun e => (List.lookup e.1 old).isNone)
  let changed := new.filter (fun e =>
    match List.lookup e.1 old with
    | some c0 => decide (c0 ≠ e.2)
    | none => false)
  let all := newOnly ++ changed
  { elements := all.take 50, omitted := all.length - 50 }

/-! ## C2 — defensive JSON extraction

`StateDetector._clean_json_like` is called from `src/main.py` (lines 96,
559, 686, 997) but not defined in the sources.  Modelled from spec §6/§9:
scan for balanced-brace substrings by depth-tracking, attempt-parse each
(longest first), validate against an expected-shape predicate; fall back
to fenced-code-block stripping only if no balanced-brace candidate
parses.  Parsing plus shape validation is the predicate parameter `ok`. -/

/-- Depth-tracking scan: given that `depth ≥ 1` braces are open, return
the characters up to and including the brace closing the first one. -/
def scanBalanced : Nat → List Char → Option (List Char)
  | _, [] => none
  | depth, c :: rest =>
    if c = '\x7b' then (scanBalanced (depth + 1) rest).map (c :: ·)
    else if c = '\x7d' then
      if depth = 1 then some [c]
      else (scanBalanced (depth - 1) rest).map (c :: ·)
    else (scanBalanced depth rest).map (c :: ·)

/-- All balanced `\x7b...\x7d` substrings, one per opening brace, in
scan order. -/
def braceCandidates : List Char → List (List Char)
  | [] => []
  | c :: rest =>
    (if c = '\x7b' then
      match scanBalanced 1 rest with
      | some t => [c :: t]
      | none => []
     else []) ++ braceCandidates rest

/-- Insert into a longest-first list, after entries of at least its length. -/
def insertLenDesc (x : List Char) : List (List Char) → List (List Char)
  | [] => [x]
  | y :: ys => if x.length ≤ y.length then y :: insertLenDesc x ys else x :: y :: ys

/-- Stable sort, longest candidate first. -/
def sortLenDesc : List (List Char) → List (List Char)
  | [] => []
  | x :: xs => insertLenDesc x (sortLenDesc xs)

/-- The fenced-code-block stripping used inline by
`StateDetector.check_goal_completion` (`src/agent/state_detector.py`,
lines 191-198): strip, drop a leading ```` ```json ```` or ```` ``` ````,
drop a trailing ```` ``` ````, strip again. -/
def stripFences (l : List Char) : List Char :=
  let t0 := stripWs isPySpace l
  let t1 := if listStarts ("```json").data t0 then t0.drop 7 else t0
  let t2 := if listStarts ("```").data t1 then t1.drop 3 else t1
  let t3 := if listEnds ("```").data t2 then t2.take (t2.length - 3) else t2
  stripWs isPySpace t3

/-- Modelled from the spec: `StateDetector._clean_json_like`.  Try every
balanced-brace candidate longest first against the parse-and-shape
predicate `ok`; fall back to fence stripping when none passes. -/
def cleanJsonLike (ok : List Char → Bool) (reply : List Char) : List Char :=
  match (sortLenDesc (braceCandidates reply)).find? ok with
  | some c => c
  | none => stripFences reply

/-! ## C3 — login-check decision (`main`, `src/main.py` lines 516-576)

The two indicator lists are built by the URL and DOM checks (either check
may throw, contributing nothing).  The tiebreaker models the screenshot
oracle: `some b` is a parsed reply whose `is_login_page` field is `b`
(absent field defaulting to `False`); `none` means the oracle call or the
JSON parse raised. -/

def loginNeedsLogin (loginRequiredIndicators loggedInIndicators : List String)
    (tiebreak : Option Bool) : Bool :=
  if loginRequiredIndicators ≠ [] then true
  else if loggedInIndicators ≠ [] then false
  else
    match tiebreak with
    | some isLoginPage => isLoginPage
    | none => true

/-! ## C9 — fill-value selection (`main`, `src/main.py` lines 1146-1153) -/

/-- The pre-parsed task parameters consumed by the fill branch. -/
structure TaskParams where
  name : Option String
  title : Option String
  description : Option String

/-- Python's `x or default` for an optional string: a missing key and an
empty string are both falsy. -/
def orStr (o : Option String) (b : String) : String :=
  match o with
  | some s => if s = "" then b else s
  | none => b

/-- The value written by every fill action: `"Test"` unless the target
label contains `"name"`/`"title"` (task parameter name, then title) or
`"description"` (task parameter description). -/
def fillValue (text : String) (p : TaskParams) : String :=
  if hasSubStr ("name") (lowerStr text) || hasSubStr ("title") (lowerStr text) then
    orStr p.name (orStr p.title ("Test"))
  else if hasSubStr ("description") (lowerStr text) then
    orStr p.description ("Test")
  else "Test"

/-! ## C4 — per-step dispatch and loop detection
(`main` while-loop, `src/main.py` lines 1029-1155)

The browser's behaviour for one dispatched action is the explicit
`ExecOutcome`; the screenshot-verification sub-branch after a click that
produced no DOM change is not modelled (it runs after dispatch and cannot
un-execute the action). -/

/-- One record of `action_history` (the keys read by the loop logic). -/
structure HRec where
  act : String
  target : String
  value : Option String
  result : String
deriving DecidableEq

/-- Outcome of dispatching one click/fill against the browser. -/
inductive ExecOutcome where
  | ok (newCount : Nat)
  | fail (reason : String)
deriving DecidableEq

/-- `action_history[-5:]`. -/
def lastFive (h : List HRec) : List HRec := h.drop (h.length - 5)

/-- `recent_same_actions` from the click branch: click records in the
last five whose target equals the current text. -/
def recentSameClickCount (h : List HRec) (text : String) : Nat :=
  ((lastFive h).filter (fun a => a.act == "click" && a.target == text)).length

/-- Occurrences of an arbitrary `(event, target)` pair in the last five
records — the claim's notion. -/
def pairCount (h : List HRec) (ev target : String) : Nat :=
  ((lastFive h).filter (fun a => a.act == ev && a.target == target)).length

/-- Result of one pass through the click/fill dispatch: the updated
history, the cached suggestion, and whether the action was dispatched to
the browser. -/
structure StepOutcome where
  hist : List HRec
  lastSuggestion : Option (String × String)
  executed : Bool
deriving DecidableEq

/-- One iteration's dispatch on a decided `(event, text)` intent.  In the
click branch the loop guard runs before execution: with ≥ 2 recent same
clicks the action is skipped, a `loop_detected` record is appended and
the cached suggestion is discarded.  The fill branch has no guard.  Any
other event (including `done`) falls through both branches. -/
def runStep (hist : List HRec) (lastSugg : Option (String × String))
    (event text : String) (params : TaskParams) (outcome : ExecOutcome) :
    StepOutcome :=
  if event == "click" then
    if 2 ≤ recentSameClickCount hist text then
      ⟨hist ++ [⟨"click", text, none, "loop_detected - skipping"⟩], none, false⟩
    else
      match outcome with
      | .ok n =>
          ⟨hist ++ [⟨"click", text, none, "success - " ++ toString n ++ " new elements"⟩],
            lastSugg, true⟩
      | .fail r =>
          ⟨hist ++ [⟨"click", text, none, "failed - " ++ r⟩], lastSugg, true⟩
  else if event == "fill" then
    let v := fillValue text params
    match outcome with
    | .ok n =>
        ⟨hist ++ [⟨"fill", text, some v, "success - " ++ toString n ++ " new elements"⟩],
          lastSugg, true⟩
    | .fail r =>
        ⟨hist ++ [⟨"fill", text, some v, "failed - " ++ r⟩], lastSugg, true⟩
  else ⟨hist, lastSugg, false⟩

/-! ## C5 — free-text element resolution

Two revisions exist in the sources: the fallback script inside
`click_text_anywhere` (`src/main.py` lines 241-299), used by the control
loop, which ranks candidates by a score; and `_click_via_text`
(`src/agent/browser_controller.py` lines 246-293), which picks the
candidate with the least `innerText`. -/

/-- A DOM element as seen by the in-page scripts. -/
structure DomEl where
  tag : String
  cursorPointer : Bool
  hasRole : Bool
  innerText : String
deriving DecidableEq

/-- The fallback script's candidate filter: non-empty `innerText` whose
normalization contains the normalized target, or vice versa. -/
def fallbackMatches (q : String) (els : List DomEl) : List DomEl :=
  els.filter (fun e =>
    e.innerText ≠ "" &&
      (hasSubStr (jsNormalize q) (jsNormalize e.innerText) ||
        hasSubStr (jsNormalize e.innerText) (jsNormalize q)))

/-- The fallback script's `rank`, scaled by 100 so the JS score
`bonuses − 0.01 × length` becomes exact integer arithmetic: +1000 for an
interactive tag, +500 for a pointer cursor, +200 for a `role` attribute,
+2000/+1500/+1000 for an exact / starts-with / contains normalized match,
−1 per character of raw `innerText`. -/
def rankEl (q : String) (e : DomEl) : Int :=
  (if lowerStr e.tag = "button" ∨ lowerStr e.tag = "a" ∨ lowerStr e.tag = "input"
    then 1000 else 0) +
  (if e.cursorPointer then 500 else 0) +
  (if e.hasRole then 200 else 0) +
  (if jsNormalize e.innerText = jsNormalize q then 2000
   else if listStarts (jsNormalize q).data (jsNormalize e.innerText).data then 1500
   else if hasSubStr (jsNormalize q) (jsNormalize e.innerText) then 1000
   else 0) -
  e.innerText.data.length

/-- The fallback script's selection: stable descending sort by rank, take
the first — i.e. the earliest element of maximal rank. -/
def fallbackPick (q : String) (els : List DomEl) : Option DomEl :=
  (fallbackMatches q els).foldl
    (fun best e =>
      match best with
      | none => some e
      | some b => if rankEl q b < rankEl q e then some e else best)
    none

/-- `_click_via_text`'s candidate filter: non-empty `innerText` whose
lower-casing contains the lower-cased query. -/
def ctMatches (q : String) (els : List DomEl) : List DomEl :=
  els.filter (fun e =>
    e.innerText ≠ "" && hasSubStr (lowerStr q) (lowerStr e.innerText))

/-- `_click_via_text`'s selection: the JS `reduce` keeping the earliest
element of strictly least `innerText` length. -/
def clickViaTextPick (q : String) (els : List DomEl) : Option DomEl :=
  (ctMatches q els).foldl
    (fun smallest cur =>
      match smallest with
      | none => some cur
      | some s => if cur.innerText.data.length < s.innerText.data.length
          then some cur else smallest)
    none

/-! ## C6 — interactive-element extraction
(`DOMInspector.extract_interactive_elements`, `src/utils/dom_inspector.py`
lines 22-122)

The parsed document is modelled as its nodes in document order.  The
subtree-derived strings (`get_text(strip=True)`, the associated label
found via `for=`/parent `<label>`, a `<select>`'s option texts) are
carried as node fields; the claim concerns only which nodes are kept. -/

structure HtmlNode where
  tag : String
  typeAttr : Option String
  idAttr : String
  classes : List String
  ariaLabel : String
  titleAttr : String
  href : String
  disabled : Bool
  nameAttr : String
  placeholder : String
  valueAttr : String
  required : Bool
  styleAttr : String
  text : String
  assocLabel : String
  options : List String
deriving DecidableEq

/-- `btn.get('type') in [...]` — `None` is never in the list. -/
def typeMem (n : HtmlNode) (l : List String) : Bool :=
  match n.typeAttr with
  | some t => decide (t ∈ l)
  | none => false

structure BtnInfo where
  tag : String
  typ : String
  text : String
  idA : String
  cls : String
  ariaLabel : String
  titleA : String
  href : String
  disabled : Bool
deriving DecidableEq

structure InputInfo where
  tag : String
  typ : String
  nameA : String
  idA : String
  placeholder : String
  value : String
  label : String
  required : Bool
  disabled : Bool
  ariaLabel : String
deriving DecidableEq

structure SelectInfo where
  nameA : String
  idA : String
  options : List String
  required : Bool
  disabled : Bool
deriving DecidableEq

structure ModalInfo where
  idA : String
  cls : String
  textContent : String
deriving DecidableEq

structure ExtractResult where
  buttons : List BtnInfo
  inputs : List InputInfo
  selects : List SelectInfo
  modals : List ModalInfo
  totalButtons : Nat
  totalInputs : Nat
  totalSelects : Nat
  totalModals : Nat
deriving DecidableEq

def mkBtnInfo (n : HtmlNode) : BtnInfo :=
  { tag := n.tag
    typ := (n.typeAttr.getD (""))
    text := n.text
    idA := n.idAttr
    cls := String.intercalate (" ") n.classes
    ariaLabel := n.ariaLabel
    titleA := n.titleAttr
    href := if n.tag = "a" then n.href else ""
    disabled := n.disabled }

def mkInputInfo (n : HtmlNode) : InputInfo :=
  { tag := n.tag
    typ := (n.typeAttr.getD ("text"))
    nameA := n.nameAttr
    idA := n.idAttr
    placeholder := n.placeholder
    value := n.valueAttr
    label := n.assocLabel
    required := n.required
    disabled := n.disabled
    ariaLabel := n.ariaLabel }

def mkSelectInfo (n : HtmlNode) : SelectInfo :=
  { nameA := n.nameAttr
    idA := n.idAttr
    options := n.options
    required := n.required
    disabled := n.disabled }

def mkModalInfo (n : HtmlNode) : ModalInfo :=
  { idA := n.idAttr
    cls := String.intercalate (" ") n.classes
    textContent := String.mk (n.text.data.take 200) }

/-- The buttons pass: `find_all(['button', 'a', 'input'])`, skipping
inputs whose type is not button/submit/reset, keeping entries with a
non-empty text, id or aria-label. -/
def extractButtons (doc : List HtmlNode) : List BtnInfo :=
  ((doc.filter (fun n =>
      (n.tag == "button" || n.tag == "a" || n.tag == "input") &&
        !(n.tag == "input" && !typeMem n ["button", "submit", "reset"]))).map
    mkBtnInfo).filter
    (fun b => b.text ≠ "" || b.idA ≠ "" || b.ariaLabel ≠ "")

/-- The inputs pass: `find_all(['input', 'textarea'])`, skipping inputs
whose type is button/submit/reset. -/
def extractInputs (doc : List HtmlNode) : List InputInfo :=
  (doc.filter (fun n =>
      (n.tag == "input" || n.tag == "textarea") &&
        !(n.tag == "input" && typeMem n ["button", "submit", "reset"]))).map
    mkInputInfo

def extractSelects (doc : List HtmlNode) : List SelectInfo :=
  (doc.filter (fun n => n.tag == "select")).map mkSelectInfo

/-- The modals pass: `div`/`dialog` nodes with a class containing
modal/dialog/popup, skipping inline `display:none`. -/
def extractModals (doc : List HtmlNode) : List ModalInfo :=
  ((doc.filter (fun n =>
      (n.tag == "div" || n.tag == "dialog") &&
        n.classes.any (fun cl =>
          hasSubStr ("modal") (lowerStr cl) || hasSubStr ("dialog") (lowerStr cl) ||
            hasSubStr ("popup") (lowerStr cl)))).filter
    (fun n => !(hasSubStr ("display: none") n.styleAttr ||
      hasSubStr ("display:none") n.styleAttr))).map mkModalInfo

/-- `DOMInspector.extract_interactive_elements`, with the caps and totals
of the returned dictionary. -/
def extract_interactive_elements (doc : List HtmlNode) : ExtractResult :=
  let buttons := extractButtons doc
  let inputs := extractInputs doc
  let selects := extractSelects doc
  let modals := extractModals doc
  { buttons := buttons.take 20
    inputs := inputs.take 20
    selects := selects.take 10
    modals := modals.take 5
    totalButtons := buttons.length
    totalInputs := inputs.length
    totalSelects := selects.length
    totalModals := modals.length }

/-! ## C8 / C10 — browser controller
(`src/agent/browser_controller.py`)

Each lookup strategy of `find_element` either raises (when building the
locator or during `is_visible`, both swallowed by the `except: continue`)
or yields a locator that is or is not visible.  The eventual
scroll-into-view + click/fill dispatch either succeeds, times out
(`PlaywrightTimeoutError`), or raises some other exception with a
message. -/

inductive StratOutcome where
  | raises
  | visible
  | notVisible
deriving DecidableEq

/-- `find_element`: first strategy yielding a visible locator, by index;
`None` when none does. -/
def findElement : List StratOutcome → Option Nat
  | [] => none
  | .visible :: _ => some 0
  | _ :: rest => (findElement rest).map (· + 1)

inductive DispatchOutcome where
  | ok
  | timeoutErr
  | raise (msg : String)
deriving DecidableEq

/-- The result dictionary of the controller's actions (`success`,
`error`, `action`; the success-only payload keys are not tracked). -/
structure ActionResult where
  success : Bool
  error : String
  action : String
deriving DecidableEq

/-- `BrowserController.click` (lines 62-75). -/
def clickAction (desc : String) (strategies : List StratOutcome)
    (dispatch : DispatchOutcome) : ActionResult :=
  match findElement strategies with
  | none => ⟨false, "Element not found: " ++ desc, "click"⟩
  | some _ =>
    match dispatch with
    | .ok => ⟨true, "", "click"⟩
    | .timeoutErr => ⟨false, "Timeout clicking: " ++ desc, "click"⟩
    | .raise m => ⟨false, m, "click"⟩

/-- `BrowserController.fill` (lines 295-312).  The inner `el.fill("")`
clear is wrapped in its own try/except-pass, so its outcome never
influences the result. -/
def fillAction (desc : String) (strategies : List StratOutcome)
    (clearOutcome : DispatchOutcome) (dispatch : DispatchOutcome) : ActionResult :=
  match findElement strategies with
  | none => ⟨false, "Input not found: " ++ desc, "fill"⟩
  | some _ =>
    match clearOutcome, dispatch with
    | _, .ok => ⟨true, "", "fill"⟩
    | _, .timeoutErr => ⟨false, "Timeout filling: " ++ desc, "fill"⟩
    | _, .raise m => ⟨false, m, "fill"⟩

/-- `BrowserController.execute_action` (lines 482-496).  The sub-calls'
results are inputs; the boolean reports whether a controller sub-method
driving the browser was invoked. -/
def executeAction (actionField : Option String)
    (navRes clickRes fillRes scrollRes : ActionResult) : ActionResult × Bool :=
  let a := lowerStr (actionField.getD (""))
  if a == "navigate" then (navRes, true)
  else if a == "click" then (clickRes, true)
  else if a == "fill" then (fillRes, true)
  else if a == "wait" then (⟨true, "", "wait"⟩, true)
  else if a == "scroll" then (scrollRes, true)
  else if a == "done" then (⟨true, "", "done"⟩, false)
  else (⟨false, "Unknown action: " ++ a, a⟩, false)

/-! ## Proof-support predicates and concrete test data -/

/-- Longest-first orderedness of a candidate list. -/
def sortedLenDesc (l : List (List Char)) : Prop :=
  List.Pairwise (fun a b => b.length ≤ a.length) l

/-- A concrete expected-shape predicate for the extractor: the candidate
mentions the `event` field. -/
def expectsEventKey (c : List Char) : Bool := hasSub (("event").data) c

/-- A concrete oracle reply with prose around one balanced JSON-like object. -/
def c2Reply : String := "noise \x7bevent: 1\x7d tail"

/-- Task parameters with no name/title/description supplied. -/
def noTaskParams : TaskParams := ⟨none, none, none⟩

/-- A history record of a fill on the `Name` field. -/
def fillNameRec : HRec := ⟨"fill", "Name", some "Test", "success - 0 new elements"⟩

/-- A history already holding two recent identical fill actions. -/
def c4FillHist : List HRec := [fillNameRec, fillNameRec]

/-- Three consecutive iterations all issuing `(click, "Save")`. -/
def saveStep1 : StepOutcome :=
  runStep [] none ("click") ("Save") noTaskParams (.ok 1)

def saveStep2 : StepOutcome :=
  runStep saveStep1.hist saveStep1.lastSuggestion ("click") ("Save") noTaskParams (.ok 1)

def saveStep3 : StepOutcome :=
  runStep saveStep2.hist saveStep2.lastSuggestion ("click") ("Save") noTaskParams (.ok 1)

/-- A plain container whose text is exactly the query. -/
def elExactDiv : DomEl := ⟨"div", false, false, "Save"⟩

/-- An interactive button whose text properly extends the query. -/
def elButtonLonger : DomEl := ⟨"button", false, false, "Savex"⟩

/-- An ancestor container of `elExactDiv`: same normalized text, longer
raw text. -/
def elNestedOuter : DomEl := ⟨"div", false, false, "Save "⟩

/-- A hidden input (`type="hidden"`). -/
def hiddenInputNode : HtmlNode :=
  { tag := "input", typeAttr := some "hidden", idAttr := "h1", classes := []
    ariaLabel := "", titleAttr := "", href := "", disabled := false
    nameAttr := "secret", placeholder := "", valueAttr := "tok"
    required := false, styleAttr := "", text := "", assocLabel := ""
    options := [] }

/-- A text input hidden by inline style. -/
def dnoneInputNode : HtmlNode :=
  { tag := "input", typeAttr := some "text", idAttr := "g1", classes := []
    ariaLabel := "", titleAttr := "", href := "", disabled := false
    nameAttr := "ghost", placeholder := "", valueAttr := ""
    required := false, styleAttr := "display: none", text := "", assocLabel := ""
    options := [] }

/-- A one-element snapshot with distinct fingerprints. -/
def sampleSnapshot : Snapshot :=
  [(("button:create task"), ⟨"Create Task", "", ""⟩)]

/-! # Lemmas

## Character-level facts about lower-casing and the whitespace classes -/

theorem toNat_pyToLower (c : Char) :
    (pyToLower c).toNat =
      if 65 ≤ c.toNat ∧ c.toNat ≤ 90 then c.toNat + 32 else c.toNat := by
  by_cases h : 65 ≤ c.toNat ∧ c.toNat ≤ 90
  · have hvalid : (c.toNat + 32).isValidChar := Or.inl (by omega)
    rw [if_pos h]
    unfold pyToLower
    rw [if_pos (by simp only [Bool.and_eq_true, decide_eq_true_eq]; exact h)]
    unfold Char.ofNat
    rw [dif_pos hvalid]
    rfl
  · rw [if_neg h]
    unfold pyToLower
    rw [if_neg (by simp only [Bool.and_eq_true, decide_eq_true_eq]; exact h)]

theorem pyToLower_eq_self {c : Char} (h : ¬(65 ≤ c.toNat ∧ c.toNat ≤ 90)) :
    pyToLower c = c := by
  unfold pyToLower
  rw [if_neg (by simp only [Bool.and_eq_true, decide_eq_true_eq]; exact h)]

theorem pyToLower_idem (c : Char) : pyToLower (pyToLower c) = pyToLower c := by
  apply pyToLower_eq_self
  rw [toNat_pyToLower]
  by_cases h : 65 ≤ c.toNat ∧ c.toNat ≤ 90
  · rw [if_pos h]; omega
  · rw [if_neg h]; omega

theorem isAsciiAlnum_pyToLower (c : Char) :
    isAsciiAlnum (pyToLower c) = isAsciiAlnum c := by
  rw [Bool.eq_iff_iff]
  unfold isAsciiAlnum
  simp only [decide_eq_true_eq]
  rw [toNat_pyToLower]
  by_cases h2 : 65 ≤ c.toNat ∧ c.toNat ≤ 90
  · rw [if_pos h2]; omega
  · rw [if_neg h2]

theorem isPySpace_pyToLower (c : Char) : isPySpace (pyToLower c) = isPySpace c := by
  rw [Bool.eq_iff_iff]
  unfold isPySpace pySpaceNats
  simp only [decide_eq_true_eq, List.mem_cons, List.not_mem_nil, or_false]
  rw [toNat_pyToLower]
  by_cases h2 : 65 ≤ c.toNat ∧ c.toNat ≤ 90
  · rw [if_pos h2]; omega
  · rw [if_neg h2]

theorem isJsSpace_pyToLower (c : Char) : isJsSpace (pyToLower c) = isJsSpace c := by
  rw [Bool.eq_iff_iff]
  unfold isJsSpace jsSpaceNats
  simp only [decide_eq_true_eq, List.mem_cons, List.not_mem_nil, or_false]
  rw [toNat_pyToLower]
  by_cases h2 : 65 ≤ c.toNat ∧ c.toNat ≤ 90
  · rw [if_pos h2]; omega
  · rw [if_neg h2]

theorem keptChar_pyToLower (sp : Char → Bool)
    (hsp : ∀ c, sp (pyToLower c) = sp c) (c : Char) :
    keptChar sp (pyToLower c) = keptChar sp c := by
  unfold keptChar
  rw [isAsciiAlnum_pyToLower, hsp]

theorem pyToLower_space : pyToLower ' ' = ' ' := by decide

/-! ## Structure of the whitespace-collapsing pass -/

theorem mem_collapseWsAux (sp : Char → Bool) (l : List Char) :
    ∀ (b : Bool), ∀ c ∈ collapseWsAux sp b l, c = ' ' ∨ (c ∈ l ∧ sp c = false) := by
  induction l with
  | nil => intro b c hc; simp [collapseWsAux] at hc
  | cons d rest ih =>
    intro b c hc
    cases hd : sp d with
    | true =>
      cases b with
      | true =>
        simp only [collapseWsAux, hd, if_true] at hc
        rcases ih true c hc with h1 | ⟨h2, h3⟩
        · exact Or.inl h1
        · exact Or.inr ⟨List.mem_cons_of_mem _ h2, h3⟩
      | false =>
        simp only [collapseWsAux, hd, if_true, Bool.false_eq_true, if_false,
          List.mem_cons] at hc
        rcases hc with rfl | hc2
        · exact Or.inl rfl
        · rcases ih true c hc2 with h1 | ⟨h2, h3⟩
          · exact Or.inl h1
          · exact Or.inr ⟨List.mem_cons_of_mem _ h2, h3⟩
    | false =>
      simp only [collapseWsAux, hd, Bool.false_eq_true, if_false, List.mem_cons] at hc
      rcases hc with rfl | hc2
      · exact Or.inr ⟨List.mem_cons_self _ _, hd⟩
      · rcases ih false c hc2 with h1 | ⟨h2, h3⟩
        · exact Or.inl h1
        · exact Or.inr ⟨List.mem_cons_of_mem _ h2, h3⟩

theorem collapseWsAux_true_head (sp : Char → Bool) (l : List Char) :
    ∀ c t, collapseWsAux sp true l = c :: t → sp c = false := by
  induction l with
  | nil => intro c t h; simp [collapseWsAux] at h
  | cons d rest ih =>
    intro c t h
    cases hd : sp d with
    | true =>
      simp only [collapseWsAux, hd, if_true] at h
      exact ih c t h
    | false =>
      simp only [collapseWsAux, hd, Bool.false_eq_true, if_false,
        List.cons.injEq] at h
      rw [← h.1]
      exact hd

theorem noDoubleSpace_collapseWsAux (sp : Char → Bool) (l : List Char) :
    ∀ b, noDoubleSpace sp (collapseWsAux sp b l) = true := by
  induction l with
  | nil => intro b; simp [collapseWsAux, noDoubleSpace]
  | cons d rest ih =>
    intro b
    cases hd : sp d with
    | true =>
      cases b with
      | true =>
        simpa only [collapseWsAux, hd, if_true] using ih true
      | false =>
        rcases hrest : collapseWsAux sp true rest with _ | ⟨e, t⟩
        · simp [collapseWsAux, hd, hrest, noDoubleSpace]
        · have he : sp e = false := collapseWsAux_true_head sp rest e t hrest
          have hrec : noDoubleSpace sp (e :: t) = true := by
            rw [← hrest]; exact ih true
          simp [collapseWsAux, hd, hrest, noDoubleSpace, he, hrec]
    | false =>
      rcases hrest : collapseWsAux sp false rest with _ | ⟨e, t⟩
      · simp [collapseWsAux, hd, hrest, noDoubleSpace]
      · have hrec : noDoubleSpace sp (e :: t) = true := by
          rw [← hrest]; exact ih false
        simp [collapseWsAux, hd, hrest, noDoubleSpace, hrec]

theorem noDoubleSpace_tail (sp : Char → Bool) {a : Char} {l : List Char}
    (h : noDoubleSpace sp (a :: l) = true) : noDoubleSpace sp l = true := by
  cases l with
  | nil => simp [noDoubleSpace]
  | cons b t =>
    simp only [noDoubleSpace, Bool.and_eq_true] at h
    exact h.2

theorem noDoubleSpace_pair (sp : Char → Bool) {a b : Char} {l : List Char}
    (h : noDoubleSpace sp (a :: b :: l) = true) (ha : sp a = true) :
    sp b = false := by
  simp only [noDoubleSpace, Bool.and_eq_true] at h
  rcases h with ⟨h1, _⟩
  cases hb : sp b
  · rfl
  · rw [ha, hb] at h1
    simp at h1

theorem collapseWsAux_eq_self (sp : Char → Bool) (l : List Char)
    (hsp1 : ∀ c ∈ l, sp c = true → c = ' ')
    (hnd : noDoubleSpace sp l = true) :
    ∀ b, (b = true → ∀ c t, l = c :: t → sp c = false) →
      collapseWsAux sp b l = l := by
  induction l with
  | nil => intro b _; simp [collapseWsAux]
  | cons d rest ih =>
    intro b hb
    cases hd : sp d with
    | false =>
      have hrest : collapseWsAux sp false rest = rest := by
        apply ih
        · intro c hc hspc; exact hsp1 c (List.mem_cons_of_mem _ hc) hspc
        · exact noDoubleSpace_tail sp hnd
        · intro hcontra; simp at hcontra
      simp [collapseWsAux, hd, hrest]
    | true =>
      cases b with
      | true =>
        have := hb rfl d rest rfl
        rw [hd] at this
        simp at this
      | false =>
        have hd2 : d = ' ' := hsp1 d (List.mem_cons_self _ _) hd
        subst hd2
        have hrest : collapseWsAux sp true rest = rest := by
          apply ih
          · intro c hc hspc; exact hsp1 c (List.mem_cons_of_mem _ hc) hspc
          · exact noDoubleSpace_tail sp hnd
          · intro _ c t hct
            subst hct
            exact noDoubleSpace_pair sp hnd hd
        simp [collapseWsAux, hd, hrest]

/-! ## Structure of the stripping passes -/

theorem mem_rstripWs (sp : Char → Bool) (l : List Char) :
    ∀ c ∈ rstripWs sp l, c ∈ l := by
  induction l with
  | nil => intro c hc; simp [rstripWs] at hc
  | cons d rest ih =>
    intro c hc
    rcases h2 : rstripWs sp rest with _ | ⟨e, t⟩
    · simp only [rstripWs, h2] at hc
      cases hd : sp d
      · rw [hd] at hc
        simp only [Bool.false_eq_true, if_false, List.mem_singleton] at hc
        subst hc
        exact List.mem_cons_self _ _
      · rw [hd] at hc
        simp at hc
    · simp only [rstripWs, h2, List.mem_cons] at hc
      rcases hc with rfl | rfl | hc3
      · exact List.mem_cons_self _ _
      · exact List.mem_cons_of_mem _ (ih c (by rw [h2]; exact List.mem_cons_self _ _))
      · exact List.mem_cons_of_mem _ (ih c (by rw [h2]; exact List.mem_cons_of_mem _ hc3))

theorem rstripWs_head (sp : Char → Bool) (l : List Char) :
    ∀ c t, rstripWs sp l = c :: t → ∃ t2, l = c :: t2 := by
  cases l with
  | nil => intro c t h; simp [rstripWs] at h
  | cons d rest =>
    intro c t h
    rcases h2 : rstripWs sp rest with _ | ⟨e, t2⟩
    · simp only [rstripWs, h2] at h
      cases hd : sp d
      · rw [hd] at h
        simp only [Bool.false_eq_true, if_false, List.cons.injEq] at h
        exact ⟨rest, by rw [h.1]⟩
      · rw [hd] at h
        simp at h
    · simp only [rstripWs, h2, List.cons.injEq] at h
      exact ⟨rest, by rw [h.1]⟩

theorem noDoubleSpace_rstripWs (sp : Char → Bool) (l : List Char)
    (h : noDoubleSpace sp l = true) : noDoubleSpace sp (rstripWs sp l) = true := by
  induction l with
  | nil => simpa [rstripWs] using h
  | cons d rest ih =>
    rcases h2 : rstripWs sp rest with _ | ⟨e, t⟩
    · simp only [rstripWs, h2]
      cases hd : sp d
      · simp [noDoubleSpace]
      · simp [noDoubleSpace]
    · obtain ⟨t3, ht3⟩ := rstripWs_head sp rest e t h2
      have hrec : noDoubleSpace sp (e :: t) = true := by
        rw [← h2]
        exact ih (noDoubleSpace_tail sp h)
      have hpair : (!(sp d && sp e)) = true := by
        rw [ht3] at h
        simp only [noDoubleSpace, Bool.and_eq_true] at h
        exact h.1
      simp only [rstripWs, h2, noDoubleSpace, Bool.and_eq_true]
      exact ⟨hpair, hrec⟩

theorem getLast?_rstripWs (sp : Char → Bool) (l : List Char) :
    ∀ c, (rstripWs sp l).getLast? = some c → sp c = false := by
  induction l with
  | nil => intro c h; simp [rstripWs] at h
  | cons d rest ih =>
    intro c h
    rcases h2 : rstripWs sp rest with _ | ⟨e, t⟩
    · simp only [rstripWs, h2] at h
      cases hd : sp d
      · rw [hd] at h
        simp only [Bool.false_eq_true, if_false, List.getLast?_singleton,
          Option.some.injEq] at h
        rw [← h]
        exact hd
      · rw [hd] at h
        simp at h
    · simp only [rstripWs, h2, List.getLast?_cons_cons] at h
      exact ih c (h2 ▸ h)

theorem rstripWs_eq_self (sp : Char → Bool) (l : List Char)
    (h : ∀ c, l.getLast? = some c → sp c = false) : rstripWs sp l = l := by
  induction l with
  | nil => simp [rstripWs]
  | cons d rest ih =>
    cases rest with
    | nil =>
      have hd : sp d = false := h d (by simp)
      simp [rstripWs, hd]
    | cons e t =>
      have hrest : rstripWs sp (e :: t) = e :: t := by
        apply ih
        intro c hc
        exact h c (by rw [List.getLast?_cons_cons]; exact hc)
      have hstep : rstripWs sp (d :: e :: t) =
          (match rstripWs sp (e :: t) with
           | [] => if sp d = true then [] else [d]
           | r => d :: r) := rfl
      rw [hstep, hrest]

theorem dropWhile_head_false (p : Char → Bool) (l : List Char) :
    ∀ c t, l.dropWhile p = c :: t → p c = false := by
  induction l with
  | nil => intro c t h; simp at h
  | cons d rest ih =>
    intro c t h
    cases hd : p d
    · rw [List.dropWhile_cons, hd] at h
      simp only [Bool.false_eq_true, if_false, List.cons.injEq] at h
      rw [← h.1]
      exact hd
    · rw [List.dropWhile_cons, hd] at h
      simp only [if_true] at h
      exact ih c t h

theorem noDoubleSpace_dropWhile (sp p : Char → Bool) (l : List Char)
    (h : noDoubleSpace sp l = true) :
    noDoubleSpace sp (l.dropWhile p) = true := by
  induction l with
  | nil => simpa using h
  | cons d rest ih =>
    cases hd : p d
    · rw [List.dropWhile_cons, hd]
      simpa using h
    · rw [List.dropWhile_cons, hd]
      simp only [if_true]
      exact ih (noDoubleSpace_tail sp h)

theorem dropWhile_eq_self (p : Char → Bool) (l : List Char)
    (h : ∀ c t, l = c :: t → p c = false) : l.dropWhile p = l := by
  cases l with
  | nil => simp
  | cons d rest =>
    rw [List.dropWhile_cons, h d rest rfl]
    simp

/-! ## Lower-casing a normal-form list -/

theorem noDoubleSpace_map_pyToLower (sp : Char → Bool)
    (hsp : ∀ c, sp (pyToLower c) = sp c) (l : List Char)
    (h : noDoubleSpace sp l = true) :
    noDoubleSpace sp (l.map pyToLower) = true := by
  induction l with
  | nil => simpa using h
  | cons a rest ih =>
    cases rest with
    | nil => simp [noDoubleSpace]
    | cons b t =>
      simp only [noDoubleSpace, Bool.and_eq_true] at h
      have hrec : noDoubleSpace sp ((b :: t).map pyToLower) = true := ih h.2
      simp only [List.map_cons] at hrec ⊢
      simp only [noDoubleSpace, Bool.and_eq_true, hsp a, hsp b]
      exact ⟨h.1, hrec⟩

theorem map_pyToLower_eq_self (l : List Char)
    (h : ∀ c ∈ l, pyToLower c = c) : l.map pyToLower = l := by
  induction l with
  | nil => simp
  | cons a rest ih =>
    rw [List.map_cons, h a (List.mem_cons_self _ _),
      ih (fun c hc => h c (List.mem_cons_of_mem _ hc))]

/-! ## Normal form of normalized text -/

theorem mem_normStem (sp : Char → Bool) (l : List Char) :
    ∀ d ∈ rstripWs sp ((collapseWs sp (l.filter (keptChar sp))).dropWhile sp),
      d = ' ' ∨ (keptChar sp d = true ∧ sp d = false) := by
  intro d hd
  have hd2 := mem_rstripWs sp _ d hd
  have hd3 : d ∈ collapseWs sp (l.filter (keptChar sp)) :=
    (List.dropWhile_sublist _).subset hd2
  rcases mem_collapseWsAux sp _ false d hd3 with h1 | ⟨h2, h3⟩
  · exact Or.inl h1
  · exact Or.inr ⟨(List.mem_filter.mp h2).2, h3⟩

theorem normalizeWith_normal (sp : Char → Bool)
    (hspace : sp ' ' = true) (hlow : ∀ c, sp (pyToLower c) = sp c)
    (l : List Char) :
    (∀ c ∈ normalizeWith sp l,
        keptChar sp c = true ∧ (sp c = true → c = ' ') ∧ pyToLower c = c) ∧
      noDoubleSpace sp (normalizeWith sp l) = true ∧
      (∀ c t, normalizeWith sp l = c :: t → sp c = false) ∧
      (∀ c, (normalizeWith sp l).getLast? = some c → sp c = false) := by
  unfold normalizeWith stripWs
  refine ⟨?_, ?_, ?_, ?_⟩
  · intro c hc
    obtain ⟨d, hd, rfl⟩ := List.mem_map.mp hc
    rcases mem_normStem sp l d hd with rfl | ⟨hkept, hspd⟩
    · rw [pyToLower_space]
      refine ⟨?_, fun _ => rfl, pyToLower_space⟩
      unfold keptChar
      rw [hspace]
      simp
    · refine ⟨?_, ?_, pyToLower_idem d⟩
      · rw [keptChar_pyToLower sp hlow]
        exact hkept
      · intro hc2
        rw [hlow d, hspd] at hc2
        simp at hc2
  · apply noDoubleSpace_map_pyToLower sp hlow
    apply noDoubleSpace_rstripWs
    apply noDoubleSpace_dropWhile
    exact noDoubleSpace_collapseWsAux sp _ false
  · intro c t h
    rcases hstem : rstripWs sp ((collapseWs sp (l.filter (keptChar sp))).dropWhile sp)
      with _ | ⟨d, t2⟩
    · rw [hstem] at h
      simp at h
    · rw [hstem] at h
      simp only [List.map_cons, List.cons.injEq] at h
      obtain ⟨t3, ht3⟩ := rstripWs_head sp _ d t2 hstem
      have hd : sp d = false := dropWhile_head_false sp _ d t3 ht3
      rw [← h.1, hlow d]
      exact hd
  · intro c h
    rw [List.getLast?_map] at h
    rcases hlast : (rstripWs sp
        ((collapseWs sp (l.filter (keptChar sp))).dropWhile sp)).getLast?
      with _ | d
    · rw [hlast] at h
      simp at h
    · rw [hlast] at h
      simp only [Option.map_some', Option.some.injEq] at h
      have hd : sp d = false := getLast?_rstripWs sp _ d hlast
      rw [← h, hlow d]
      exact hd

theorem normalizeWith_eq_self (sp : Char → Bool) (l : List Char)
    (hmem : ∀ c ∈ l, keptChar sp c = true ∧ (sp c = true → c = ' ') ∧ pyToLower c = c)
    (hnd : noDoubleSpace sp l = true)
    (hhead : ∀ c t, l = c :: t → sp c = false)
    (hlast : ∀ c, l.getLast? = some c → sp c = false) :
    normalizeWith sp l = l := by
  unfold normalizeWith stripWs collapseWs
  rw [List.filter_eq_self.mpr (fun c hc => (hmem c hc).1)]
  rw [collapseWsAux_eq_self sp l (fun c hc => (hmem c hc).2.1) hnd false
    (by intro h; simp at h)]
  rw [dropWhile_eq_self sp l hhead]
  rw [rstripWs_eq_self sp l hlast]
  exact map_pyToLower_eq_self l (fun c hc => (hmem c hc).2.2)

theorem normalizeWith_idem (sp : Char → Bool)
    (hspace : sp ' ' = true) (hlow : ∀ c, sp (pyToLower c) = sp c)
    (l : List Char) :
    normalizeWith sp (normalizeWith sp l) = normalizeWith sp l := by
  obtain ⟨hmem, hnd, hhead, hlast⟩ := normalizeWith_normal sp hspace hlow l
  exact normalizeWith_eq_self sp _ hmem hnd hhead hlast

/-! # Claim theorems -/

/-- C7: text normalization (strip everything except letters, digits and
whitespace; collapse whitespace; lowercase) is idempotent — for every
string `x`, `normalize(normalize(x)) = normalize(x)` — and
punctuation-insensitive: `normalize("Blank + Project") =
normalize("Blank Project")`. -/
theorem C7_normalize_idem_and_punct :
    (∀ s : String,
        normalize_text_for_matching (normalize_text_for_matching s) =
          normalize_text_for_matching s) ∧
      normalize_text_for_matching ("Blank + Project") =
        normalize_text_for_matching ("Blank Project") := by
  constructor
  · intro s
    show String.mk (normalizeWith isPySpace (normalizeWith isPySpace s.data)) =
      String.mk (normalizeWith isPySpace s.data)
    rw [normalizeWith_idem isPySpace (by decide) isPySpace_pyToLower]
  · rfl

/-- C3 counterexample: with both heuristic indicator lists empty and the
screenshot tiebreaker failing, `main`'s login check sets `needs_login`
to `True` ("login required"), so the claimed verdict `needs_login = false`
is wrong on the code (`src/main.py` lines 570-576). -/
theorem C3_counterexample : ¬ loginNeedsLogin [] [] none = false := by decide

/-- C3 (amended): when both the logged-in and login-required heuristic
signal sets are empty and the screenshot tiebreaker call itself fails,
the login check defaults to "login required" (`needs_login = true`). -/
theorem C3_default_login_required (req logd : List String) (tb : Option Bool)
    (h1 : req = []) (h2 : logd = []) (h3 : tb = none) :
    loginNeedsLogin req logd tb = true := by
  subst h1; subst h2; subst h3; rfl

/-- Witness for `C3_default_login_required` at the empty indicator lists. -/
theorem C3_default_login_required_witness :
    loginNeedsLogin [] [] none = true :=
  C3_default_login_required [] [] none rfl rfl rfl

/-- C9: the fill value is `"Test"` unless the target label contains
`"name"`/`"title"` (task parameter name, else title, else `"Test"`) or
`"description"` (task parameter description, else `"Test"`); the value is
a function of the label and the task parameters only, and the record the
loop appends carries exactly this value. -/
theorem C9_fill_value_selection (text : String) (p : TaskParams) :
    ((hasSubStr ("name") (lowerStr text) || hasSubStr ("title") (lowerStr text)) = true →
      fillValue text p = orStr p.name (orStr p.title ("Test"))) ∧
    ((hasSubStr ("name") (lowerStr text) || hasSubStr ("title") (lowerStr text)) = false →
      hasSubStr ("description") (lowerStr text) = true →
      fillValue text p = orStr p.description ("Test")) ∧
    ((hasSubStr ("name") (lowerStr text) || hasSubStr ("title") (lowerStr text)) = false →
      hasSubStr ("description") (lowerStr text) = false →
      fillValue text p = "Test") ∧
    (∀ hist sugg outcome, ∃ r,
      (runStep hist sugg ("fill") text p outcome).hist = hist ++ [r] ∧
        r.value = some (fillValue text p)) := by
  refine ⟨?_, ?_, ?_, ?_⟩
  · intro h
    unfold fillValue
    rw [if_pos h]
  · intro h1 h2
    unfold fillValue
    rw [if_neg (by rw [h1]; simp), if_pos h2]
  · intro h1 h2
    unfold fillValue
    rw [if_neg (by rw [h1]; simp), if_neg (by rw [h2]; simp)]
  · intro hist sugg outcome
    cases outcome with
    | ok n =>
      exact ⟨⟨"fill", text, some (fillValue text p),
        "success - " ++ toString n ++ " new elements"⟩, by simp [runStep], rfl⟩
    | fail r =>
      exact ⟨⟨"fill", text, some (fillValue text p), "failed - " ++ r⟩,
        by simp [runStep], rfl⟩

/-- Witness for `C9_fill_value_selection`: a label containing `name` with
a supplied task name yields that name; a plain label yields `"Test"`. -/
theorem C9_fill_value_selection_witness :
    fillValue ("Task Name") ⟨some ("Client"), none, none⟩ =
      orStr (some ("Client")) (orStr none ("Test")) ∧
    fillValue ("Due Date") noTaskParams = "Test" :=
  ⟨(C9_fill_value_selection ("Task Name") ⟨some ("Client"), none, none⟩).1 (by decide),
   (C9_fill_value_selection ("Due Date") noTaskParams).2.2.1 (by decide) (by decide)⟩

/-- C10: `execute_action` is total over action dictionaries: `done`
returns success without invoking any browser-driving sub-method, and any
action string outside the six known ones yields a `success = False`
record with an `Unknown action` error instead of an exception. -/
theorem C10_execute_action_total (a0 : Option String)
    (navRes clickRes fillRes scrollRes : ActionResult) :
    (lowerStr (a0.getD ("")) = "done" →
      executeAction a0 navRes clickRes fillRes scrollRes =
        (⟨true, "", "done"⟩, false)) ∧
    (lowerStr (a0.getD ("")) ∉
        (["navigate", "click", "fill", "wait", "scroll", "done"] : List String) →
      executeAction a0 navRes clickRes fillRes scrollRes =
        (⟨false, "Unknown action: " ++ lowerStr (a0.getD ("")),
          lowerStr (a0.getD (""))⟩, false)) := by
  constructor
  · intro h
    simp only [executeAction, h]
    rfl
  · intro h
    simp only [List.mem_cons, List.not_mem_nil, or_false, not_or] at h
    obtain ⟨h1, h2, h3, h4, h5, h6⟩ := h
    simp only [executeAction]
    rw [if_neg (by simp only [beq_iff_eq]; exact h1),
      if_neg (by simp only [beq_iff_eq]; exact h2),
      if_neg (by simp only [beq_iff_eq]; exact h3),
      if_neg (by simp only [beq_iff_eq]; exact h4),
      if_neg (by simp only [beq_iff_eq]; exact h5),
      if_neg (by simp only [beq_iff_eq]; exact h6)]

/-- Witness for `C10_execute_action_total` at `done` and at an unknown
action string. -/
theorem C10_execute_action_total_witness :
    executeAction (some ("Done")) ⟨true, "", "navigate"⟩ ⟨true, "", "click"⟩
        ⟨true, "", "fill"⟩ ⟨true, "", "scroll"⟩ = (⟨true, "", "done"⟩, false) ∧
    executeAction (some ("hover")) ⟨true, "", "navigate"⟩ ⟨true, "", "click"⟩
        ⟨true, "", "fill"⟩ ⟨true, "", "scroll"⟩ =
      (⟨false, "Unknown action: " ++ lowerStr ("hover"), lowerStr ("hover")⟩, false) :=
  ⟨(C10_execute_action_total (some ("Done")) _ _ _ _).1 (by decide),
   (C10_execute_action_total (some ("hover")) _ _ _ _).2 (by decide)⟩

/-- C4 counterexample: the loop guard exists only in the click branch.
With the pair `(fill, "Name")` already twice in the last five records, a
third fill is still dispatched (`executed = true`), so the claimed skip
for every repeated `(event, target)` pair is wrong on the code
(`src/main.py` lines 1032-1046 versus the fill branch at 1143-1155). -/
theorem C4_counterexample :
    2 ≤ pairCount c4FillHist ("fill") ("Name") ∧
      (runStep c4FillHist none ("fill") ("Name") noTaskParams (.ok 0)).executed
        = true := by
  constructor
  · decide
  · decide

/-- C4 (amended): for click intents only — if the pair `(click, target)`
already appears at least twice in the last five records, the click is
skipped before execution, a `loop_detected` record is appended and the
cached intent is discarded (forcing a fresh oracle query next iteration);
in particular the third of three consecutive `(click, "Save")` intents is
never dispatched.  Repeated fill intents carry no such guard. -/
theorem C4_click_loop_detection :
    (∀ (hist : List HRec) (sugg : Option (String × String)) (text : String)
        (params : TaskParams) (outcome : ExecOutcome),
      2 ≤ recentSameClickCount hist text →
        runStep hist sugg ("click") text params outcome =
          ⟨hist ++ [⟨"click", text, none, "loop_detected - skipping"⟩],
            none, false⟩) ∧
    (saveStep1.executed = true ∧ saveStep2.executed = true ∧
      saveStep3.executed = false ∧ saveStep3.lastSuggestion = none) := by
  constructor
  · intro hist sugg text params outcome h
    unfold runStep
    rw [if_pos (by rfl), if_pos h]
  · refine ⟨by decide, by decide, by decide, by decide⟩

/-- Witness for `C4_click_loop_detection`: the guard fires on a history
with two recent `(click, "Save")` records. -/
theorem C4_click_loop_detection_witness :
    2 ≤ recentSameClickCount saveStep2.hist ("Save") ∧
      runStep saveStep2.hist saveStep2.lastSuggestion ("click") ("Save")
          noTaskParams (.ok 1) =
        ⟨saveStep2.hist ++ [⟨"click", ("Save"), none, "loop_detected - skipping"⟩],
          none, false⟩ :=
  ⟨by decide,
   C4_click_loop_detection.1 saveStep2.hist saveStep2.lastSuggestion ("Save")
     noTaskParams (.ok 1) (by decide)⟩

/-- In a snapshot with pairwise-distinct fingerprints, looking up an
entry's own fingerprint returns that entry's content. -/
theorem lookup_of_mem_nodup (s : Snapshot)
    (hnodup : (s.map Prod.fst).Nodup) :
    ∀ p ∈ s, List.lookup p.1 s = some p.2 := by
  induction s with
  | nil => simp
  | cons q rest ih =>
    intro p hp
    rw [List.map_cons, List.nodup_cons] at hnodup
    rcases List.mem_cons.mp hp with rfl | hp2
    · simp [List.lookup]
    · have hne : ¬ p.1 == q.1 := by
        simp only [beq_iff_eq]
        intro he
        exact hnodup.1 (he ▸ List.mem_map_of_mem Prod.fst hp2)
      simp only [List.lookup, Bool.not_eq_true] at hne ⊢
      rw [hne]
      exact ih hnodup.2 p hp2

/-- C1: diffing a snapshot (with the spec's fingerprint-uniqueness
invariant) against itself yields the empty delta, and the differ is a
pure, deterministic function of its two inputs. -/
theorem C1_diff_self_empty_deterministic :
    (∀ s : Snapshot, (s.map Prod.fst).Nodup →
      diff_snapshots s s = ⟨[], 0⟩) ∧
    (∀ o1 n1 o2 n2 : Snapshot, o1 = o2 → n1 = n2 →
      diff_snapshots o1 n1 = diff_snapshots o2 n2) := by
  constructor
  · intro s h
    have h1 : s.filter (fun e => (List.lookup e.1 s).isNone) = [] := by
      apply List.filter_eq_nil_iff.mpr
      intro p hp
      rw [lookup_of_mem_nodup s h p hp]
      simp
    have h2 : s.filter (fun e =>
        match List.lookup e.1 s with
        | some c0 => decide (c0 ≠ e.2)
        | none => false) = [] := by
      apply List.filter_eq_nil_iff.mpr
      intro p hp
      rw [lookup_of_mem_nodup s h p hp]
      simp
    unfold diff_snapshots
    rw [h1, h2]
    rfl
  · intro o1 n1 o2 n2 h1 h2
    rw [h1, h2]

/-- Witness for `C1_diff_self_empty_deterministic` on a concrete
snapshot. -/
theorem C1_diff_self_empty_deterministic_witness :
    diff_snapshots sampleSnapshot sampleSnapshot = ⟨[], 0⟩ ∧
      diff_snapshots sampleSnapshot sampleSnapshot =
        diff_snapshots sampleSnapshot sampleSnapshot :=
  ⟨C1_diff_self_empty_deterministic.1 sampleSnapshot (by decide),
   C1_diff_self_empty_deterministic.2 sampleSnapshot sampleSnapshot
     sampleSnapshot sampleSnapshot rfl rfl⟩

/-- C6 counterexample: the extractor keeps inputs of subtype `hidden`
(only `button`/`submit`/`reset` are diverted to the buttons pass), and it
applies no visibility check to inputs — an inline `display: none` input
is captured too.  So the claimed exclusion of hidden inputs and of
invisible elements is wrong on the code (`src/utils/dom_inspector.py`
lines 49-51). -/
theorem C6_counterexample :
    mkInputInfo hiddenInputNode ∈
        (extract_interactive_elements [hiddenInputNode]).inputs ∧
      (mkInputInfo hiddenInputNode).typ = "hidden" ∧
      mkInputInfo dnoneInputNode ∈
        (extract_interactive_elements [dnoneInputNode]).inputs := by
  refine ⟨by decide, by decide, by decide⟩

/-- C6 (amended): the captured input set consists of `input`/`textarea`
elements only, with inputs of subtype `button`, `submit` or `reset`
excluded; inputs of subtype `hidden` are included, and no visibility
check is applied to buttons or inputs (only the modals pass skips inline
`display:none`). -/
theorem C6_input_extraction :
    (∀ (doc : List HtmlNode) (info : InputInfo),
      info ∈ (extract_interactive_elements doc).inputs →
        (info.tag = "input" ∨ info.tag = "textarea") ∧
          (info.tag = "input" →
            info.typ ≠ "button" ∧ info.typ ≠ "submit" ∧ info.typ ≠ "reset")) ∧
    mkInputInfo hiddenInputNode ∈
      (extract_interactive_elements [hiddenInputNode]).inputs ∧
    mkInputInfo dnoneInputNode ∈
      (extract_interactive_elements [dnoneInputNode]).inputs := by
  refine ⟨?_, by decide, by decide⟩
  intro doc info hinfo
  have h1 : info ∈ extractInputs doc := List.mem_of_mem_take hinfo
  unfold extractInputs at h1
  obtain ⟨n, hn, rfl⟩ := List.mem_map.mp h1
  obtain ⟨hmem, hcond⟩ := List.mem_filter.mp hn
  rw [Bool.and_eq_true] at hcond
  obtain ⟨hA, hB⟩ := hcond
  constructor
  · rcases (by simpa using hA : n.tag = "input" ∨ n.tag = "textarea") with h | h
    · exact Or.inl h
    · exact Or.inr h
  · intro htag
    have htagn : n.tag = "input" := htag
    have hfalse : typeMem n ["button", "submit", "reset"] = false := by
      cases hx : typeMem n ["button", "submit", "reset"]
      · rfl
      · rw [htagn, hx] at hB
        simp at hB
    show n.typeAttr.getD ("text") ≠ "button" ∧ n.typeAttr.getD ("text") ≠ "submit" ∧
      n.typeAttr.getD ("text") ≠ "reset"
    cases ht : n.typeAttr with
    | none =>
      exact ⟨by decide, by decide, by decide⟩
    | some t =>
      unfold typeMem at hfalse
      rw [ht] at hfalse
      have hnot : ¬ t ∈ ["button", "submit", "reset"] :=
        of_decide_eq_false hfalse
      simp only [List.mem_cons, List.not_mem_nil, or_false, not_or] at hnot
      simpa using hnot

/-- Witness for `C6_input_extraction` on the hidden-input document. -/
theorem C6_input_extraction_witness :
    ((mkInputInfo hiddenInputNode).tag = "input" ∨
        (mkInputInfo hiddenInputNode).tag = "textarea") ∧
      ((mkInputInfo hiddenInputNode).tag = "input" →
        (mkInputInfo hiddenInputNode).typ ≠ "button" ∧
          (mkInputInfo hiddenInputNode).typ ≠ "submit" ∧
          (mkInputInfo hiddenInputNode).typ ≠ "reset") :=
  C6_input_extraction.1 [hiddenInputNode] (mkInputInfo hiddenInputNode) (by decide)

/-- The best-by-rank fold of the fallback script: the result (when some)
is drawn from the accumulator or the list and dominates both. -/
theorem foldl_maxRank_spec (f : DomEl → Int) :
    ∀ (l : List DomEl) (acc : Option DomEl) (c : DomEl),
      l.foldl (fun best e =>
        match best with
        | none => some e
        | some b => if f b < f e then some e else best) acc = some c →
      (acc = some c ∨ c ∈ l) ∧ (∀ e ∈ l, f e ≤ f c) ∧
        (∀ b, acc = some b → f b ≤ f c) := by
  intro l
  induction l with
  | nil =>
    intro acc c h
    rw [List.foldl_nil] at h
    refine ⟨Or.inl h, by simp, ?_⟩
    intro b hb
    rw [hb] at h
    injection h with h2
    rw [h2]
  | cons e rest ih =>
    intro acc c h
    rw [List.foldl_cons] at h
    cases acc with
    | none =>
      obtain ⟨hm, hmax, hacc⟩ := ih (some e) c h
      refine ⟨?_, ?_, ?_⟩
      · rcases hm with he | hc
        · injection he with he2
          rw [← he2]
          exact Or.inr (List.mem_cons_self _ _)
        · exact Or.inr (List.mem_cons_of_mem _ hc)
      · intro x hx
        rcases List.mem_cons.mp hx with rfl | hx2
        · exact hacc x rfl
        · exact hmax x hx2
      · intro b hb
        exact Option.noConfusion hb
    | some b0 =>
      by_cases hcmp : f b0 < f e
      · have h2 : List.foldl (fun best e' =>
            match best with
            | none => some e'
            | some b => if f b < f e' then some e' else best) (some e) rest =
              some c := by
          have hstep : (if f b0 < f e then some e else some b0) = some e :=
            if_pos hcmp
          rw [← hstep]
          exact h
        obtain ⟨hm, hmax, hacc⟩ := ih (some e) c h2
        refine ⟨?_, ?_, ?_⟩
        · rcases hm with he | hc
          · injection he with he2
            rw [← he2]
            exact Or.inr (List.mem_cons_self _ _)
          · exact Or.inr (List.mem_cons_of_mem _ hc)
        · intro x hx
          rcases List.mem_cons.mp hx with rfl | hx2
          · exact hacc x rfl
          · exact hmax x hx2
        · intro b hb
          injection hb with hb2
          rw [← hb2]
          exact le_of_lt (lt_of_lt_of_le hcmp (hacc e rfl))
      · have h2 : List.foldl (fun best e' =>
            match best with
            | none => some e'
            | some b => if f b < f e' then some e' else best) (some b0) rest =
              some c := by
          have hstep : (if f b0 < f e then some e else some b0) = some b0 :=
            if_neg hcmp
          rw [← hstep]
          exact h
        obtain ⟨hm, hmax, hacc⟩ := ih (some b0) c h2
        refine ⟨?_, ?_, ?_⟩
        · rcases hm with he | hc
          · exact Or.inl he
          · exact Or.inr (List.mem_cons_of_mem _ hc)
        · intro x hx
          rcases List.mem_cons.mp hx with rfl | hx2
          · exact le_trans (le_of_not_lt hcmp) (hacc b0 rfl)
          · exact hmax x hx2
        · exact hacc

/-- The least-text fold of `_click_via_text`: the result (when some) is
drawn from the accumulator or the list and has minimal length. -/
theorem foldl_minLen_spec (g : DomEl → Nat) :
    ∀ (l : List DomEl) (acc : Option DomEl) (c : DomEl),
      l.foldl (fun smallest cur =>
        match smallest with
        | none => some cur
        | some s => if g cur < g s then some cur else smallest) acc = some c →
      (acc = some c ∨ c ∈ l) ∧ (∀ e ∈ l, g c ≤ g e) ∧
        (∀ b, acc = some b → g c ≤ g b) := by
  intro l
  induction l with
  | nil =>
    intro acc c h
    rw [List.foldl_nil] at h
    refine ⟨Or.inl h, by simp, ?_⟩
    intro b hb
    rw [hb] at h
    injection h with h2
    rw [h2]
  | cons e rest ih =>
    intro acc c h
    rw [List.foldl_cons] at h
    cases acc with
    | none =>
      obtain ⟨hm, hmax, hacc⟩ := ih (some e) c h
      refine ⟨?_, ?_, ?_⟩
      · rcases hm with he | hc
        · injection he with he2
          rw [← he2]
          exact Or.inr (List.mem_cons_self _ _)
        · exact Or.inr (List.mem_cons_of_mem _ hc)
      · intro x hx
        rcases List.mem_cons.mp hx with rfl | hx2
        · exact hacc x rfl
        · exact hmax x hx2
      · intro b hb
        exact Option.noConfusion hb
    | some b0 =>
      by_cases hcmp : g e < g b0
      · have h2 : List.foldl (fun smallest cur =>
            match smallest with
            | none => some cur
            | some s => if g cur < g s then some cur else smallest) (some e) rest =
              some c := by
          have hstep : (if g e < g b0 then some e else some b0) = some e :=
            if_pos hcmp
          rw [← hstep]
          exact h
        obtain ⟨hm, hmax, hacc⟩ := ih (some e) c h2
        refine ⟨?_, ?_, ?_⟩
        · rcases hm with he | hc
          · injection he with he2
            rw [← he2]
            exact Or.inr (List.mem_cons_self _ _)
          · exact Or.inr (List.mem_cons_of_mem _ hc)
        · intro x hx
          rcases List.mem_cons.mp hx with rfl | hx2
          · exact hacc x rfl
          · exact hmax x hx2
        · intro b hb
          injection hb with hb2
          rw [← hb2]
          exact le_trans (hacc e rfl) (le_of_lt hcmp)
      · have h2 : List.foldl (fun smallest cur =>
            match smallest with
            | none => some cur
            | some s => if g cur < g s then some cur else smallest) (some b0) rest =
              some c := by
          have hstep : (if g e < g b0 then some e else some b0) = some b0 :=
            if_neg hcmp
          rw [← hstep]
          exact h
        obtain ⟨hm, hmax, hacc⟩ := ih (some b0) c h2
        refine ⟨?_, ?_, ?_⟩
        · rcases hm with he | hc
          · exact Or.inl he
          · exact Or.inr (List.mem_cons_of_mem _ hc)
        · intro x hx
          rcases List.mem_cons.mp hx with rfl | hx2
          · exact le_trans (hacc b0 rfl) (le_of_not_lt hcmp)
          · exact hmax x hx2
        · exact hacc

/-- C5 counterexample: in the control loop's full-DOM fallback
(`click_text_anywhere`, `src/main.py`), the plain container `elExactDiv`
("Save", the shortest matching text) loses to the longer button
`elButtonLonger` ("Savex"), because selection maximizes the score, in
which length is only a `−0.01`-per-character penalty.  So the claimed
shortest-text selection is wrong on the resolver the loop uses. -/
theorem C5_counterexample :
    elExactDiv ∈ fallbackMatches ("Save") [elExactDiv, elButtonLonger] ∧
      fallbackPick ("Save") [elExactDiv, elButtonLonger] = some elButtonLonger ∧
      elExactDiv.innerText.data.length < elButtonLonger.innerText.data.length := by
  refine ⟨by decide, by decide, by decide⟩

/-- C5 (amended): the full-DOM fallback of `click_text_anywhere` selects
the candidate of maximal score (interactive tag +10, pointer cursor +5,
role +2, exact +20 / starts-with +15 / contains +10 on normalized text,
−0.01 per raw character), so the shortest matching text wins only among
candidates with equal bonuses — as for two nested generic containers
with identical normalized text, where the shorter raw text is selected;
the superseded `_click_via_text` helper of the browser controller does
select the element with the shortest matching text. -/
theorem C5_resolver_ranking :
    (∀ (q : String) (els : List DomEl) (chosen : DomEl),
      fallbackPick q els = some chosen →
        chosen ∈ fallbackMatches q els ∧
          ∀ e ∈ fallbackMatches q els, rankEl q e ≤ rankEl q chosen) ∧
    (∀ (q : String) (els : List DomEl) (chosen : DomEl),
      clickViaTextPick q els = some chosen →
        chosen ∈ ctMatches q els ∧
          ∀ e ∈ ctMatches q els,
            chosen.innerText.data.length ≤ e.innerText.data.length) ∧
    fallbackPick ("Save") [elNestedOuter, elExactDiv] = some elExactDiv := by
  refine ⟨?_, ?_, by decide⟩
  · intro q els chosen h
    obtain ⟨hm, hmax, _⟩ := foldl_maxRank_spec (rankEl q) (fallbackMatches q els)
      none chosen h
    refine ⟨?_, hmax⟩
    rcases hm with he | hc
    · exact Option.noConfusion he
    · exact hc
  · intro q els chosen h
    obtain ⟨hm, hmin, _⟩ := foldl_minLen_spec (fun e => e.innerText.data.length)
      (ctMatches q els) none chosen h
    refine ⟨?_, hmin⟩
    rcases hm with he | hc
    · exact Option.noConfusion he
    · exact hc

/-- Witness for `C5_resolver_ranking` on concrete element lists. -/
theorem C5_resolver_ranking_witness :
    (elButtonLonger ∈ fallbackMatches ("Save") [elExactDiv, elButtonLonger] ∧
      ∀ e ∈ fallbackMatches ("Save") [elExactDiv, elButtonLonger],
        rankEl ("Save") e ≤ rankEl ("Save") elButtonLonger) ∧
    (elExactDiv ∈ ctMatches ("Save") [elNestedOuter, elExactDiv] ∧
      ∀ e ∈ ctMatches ("Save") [elNestedOuter, elExactDiv],
        elExactDiv.innerText.data.length ≤ e.innerText.data.length) :=
  ⟨C5_resolver_ranking.1 ("Save") [elExactDiv, elButtonLonger] elButtonLonger
     (by decide),
   C5_resolver_ranking.2.1 ("Save") [elNestedOuter, elExactDiv] elExactDiv
     (by decide)⟩

/-- Membership through `insertLenDesc`. -/
theorem mem_insertLenDesc (x : List Char) :
    ∀ (l : List (List Char)) (a : List Char),
      a ∈ insertLenDesc x l ↔ a = x ∨ a ∈ l := by
  intro l
  induction l with
  | nil => intro a; simp [insertLenDesc]
  | cons y ys ih =>
    intro a
    unfold insertLenDesc
    by_cases hxy : x.length ≤ y.length
    · rw [if_pos hxy]
      simp only [List.mem_cons, ih]
      tauto
    · rw [if_neg hxy]
      simp only [List.mem_cons]

/-- The longest-first sort is a reordering. -/
theorem mem_sortLenDesc :
    ∀ (l : List (List Char)) (a : List Char), a ∈ sortLenDesc l ↔ a ∈ l := by
  intro l
  induction l with
  | nil => intro a; simp [sortLenDesc]
  | cons y ys ih =>
    intro a
    unfold sortLenDesc
    rw [mem_insertLenDesc]
    simp only [List.mem_cons, ih]

theorem sorted_insertLenDesc (x : List Char) :
    ∀ l, sortedLenDesc l → sortedLenDesc (insertLenDesc x l) := by
  intro l
  induction l with
  | nil => intro _; simp [insertLenDesc, sortedLenDesc]
  | cons y ys ih =>
    intro h
    unfold sortedLenDesc at h ⊢
    rw [List.pairwise_cons] at h
    obtain ⟨hy, hys⟩ := h
    unfold insertLenDesc
    by_cases hxy : x.length ≤ y.length
    · rw [if_pos hxy, List.pairwise_cons]
      constructor
      · intro z hz
        rcases (mem_insertLenDesc x ys z).mp hz with rfl | hz2
        · exact hxy
        · exact hy z hz2
      · exact ih hys
    · rw [if_neg hxy, List.pairwise_cons]
      constructor
      · intro z hz
        rcases List.mem_cons.mp hz with rfl | hz2
        · omega
        · have := hy z hz2
          omega
      · exact List.Pairwise.cons hy hys

theorem sorted_sortLenDesc : ∀ l, sortedLenDesc (sortLenDesc l) := by
  intro l
  induction l with
  | nil => simp [sortLenDesc, sortedLenDesc]
  | cons y ys ih => exact sorted_insertLenDesc y _ ih

/-- `find?` on a longest-first list returns a passing entry of maximal
length. -/
theorem find?_sorted_max (ok : List Char → Bool) :
    ∀ l, sortedLenDesc l → ∀ r, l.find? ok = some r →
      ok r = true ∧ r ∈ l ∧ ∀ c ∈ l, ok c = true → c.length ≤ r.length := by
  intro l
  induction l with
  | nil => intro _ r h; simp at h
  | cons y ys ih =>
    intro hs r h
    unfold sortedLenDesc at hs
    rw [List.pairwise_cons] at hs
    obtain ⟨hy, hys⟩ := hs
    cases hok : ok y with
    | true =>
      rw [List.find?_cons_of_pos _ hok] at h
      injection h with h2
      subst h2
      refine ⟨hok, List.mem_cons_self _ _, ?_⟩
      intro c hc _
      rcases List.mem_cons.mp hc with rfl | hc2
      · exact le_refl _
      · exact hy c hc2
    | false =>
      rw [List.find?_cons_of_neg _ (by simp [hok])] at h
      obtain ⟨hokr, hmem, hmax⟩ := ih hys r h
      refine ⟨hokr, List.mem_cons_of_mem _ hmem, ?_⟩
      intro c hc hokc
      rcases List.mem_cons.mp hc with rfl | hc2
      · rw [hok] at hokc
        exact absurd hokc (by simp)
      · exact hmax c hc2 hokc

/-- C2: the extraction routine tries the balanced-brace candidates,
longer before shorter, and returns one that parses and matches the
expected shape (the predicate `ok`); it falls back to fenced-code-block
stripping exactly when no balanced-brace candidate passes. -/
theorem C2_clean_json_like (ok : List Char → Bool) (reply : List Char) :
    ((∃ c ∈ braceCandidates reply, ok c = true) →
      ok (cleanJsonLike ok reply) = true ∧
        cleanJsonLike ok reply ∈ braceCandidates reply ∧
        ∀ c ∈ braceCandidates reply, ok c = true →
          c.length ≤ (cleanJsonLike ok reply).length) ∧
    ((∀ c ∈ braceCandidates reply, ok c = false) →
      cleanJsonLike ok reply = stripFences reply) := by
  constructor
  · rintro ⟨c0, hc0, hok0⟩
    have hsome : ((sortLenDesc (braceCandidates reply)).find? ok).isSome := by
      rw [List.find?_isSome]
      exact ⟨c0, (mem_sortLenDesc _ c0).mpr hc0, hok0⟩
    obtain ⟨r, hr⟩ := Option.isSome_iff_exists.mp hsome
    obtain ⟨hokr, hmem, hmax⟩ :=
      find?_sorted_max ok _ (sorted_sortLenDesc _) r hr
    have hclean : cleanJsonLike ok reply = r := by
      unfold cleanJsonLike
      rw [hr]
    rw [hclean]
    refine ⟨hokr, (mem_sortLenDesc _ r).mp hmem, ?_⟩
    intro c hc hokc
    exact hmax c ((mem_sortLenDesc _ c).mpr hc) hokc
  · intro hall
    have hnone : (sortLenDesc (braceCandidates reply)).find? ok = none := by
      rw [List.find?_eq_none]
      intro x hx
      rw [hall x ((mem_sortLenDesc _ x).mp hx)]
      simp
    unfold cleanJsonLike
    rw [hnone]

/-- Witness for `C2_clean_json_like` on a concrete reply: the balanced
object is extracted when it matches the expected shape, and an
always-failing shape predicate forces the fence-stripping fallback. -/
theorem C2_clean_json_like_witness :
    (expectsEventKey (cleanJsonLike expectsEventKey c2Reply.data) = true ∧
      cleanJsonLike expectsEventKey c2Reply.data ∈ braceCandidates c2Reply.data ∧
      ∀ c ∈ braceCandidates c2Reply.data, expectsEventKey c = true →
        c.length ≤ (cleanJsonLike expectsEventKey c2Reply.data).length) ∧
    cleanJsonLike (fun _ => false) c2Reply.data = stripFences c2Reply.data :=
  ⟨(C2_clean_json_like expectsEventKey c2Reply.data).1
     ⟨("\x7bevent: 1\x7d").data, by decide, by decide⟩,
   (C2_clean_json_like (fun _ => false) c2Reply.data).2 (fun c hc => rfl)⟩

/-- `find_element` yields `None` exactly when no strategy produced a
visible locator. -/
theorem findElement_eq_none (outs : List StratOutcome) :
    findElement outs = none ↔ ∀ o ∈ outs, o ≠ StratOutcome.visible := by
  induction outs with
  | nil => simp [findElement]
  | cons o rest ih =>
    cases o with
    | visible =>
      rw [show findElement (.visible :: rest) = some 0 from rfl]
      constructor
      · intro h; exact Option.noConfusion h
      · intro h; exact absurd rfl (h _ (List.mem_cons_self _ _))
    | raises =>
      rw [show findElement (.raises :: rest) = (findElement rest).map (· + 1)
        from rfl]
      rw [Option.map_eq_none', ih]
      constructor
      · intro h o ho
        rcases List.mem_cons.mp ho with rfl | ho2
        · intro hc; exact StratOutcome.noConfusion hc
        · exact h o ho2
      · intro h o ho
        exact h o (List.mem_cons_of_mem _ ho)
    | notVisible =>
      rw [show findElement (.notVisible :: rest) = (findElement rest).map (· + 1)
        from rfl]
      rw [Option.map_eq_none', ih]
      constructor
      · intro h o ho
        rcases List.mem_cons.mp ho with rfl | ho2
        · intro hc; exact StratOutcome.noConfusion hc
        · exact h o ho2
      · intro h o ho
        exact h o (List.mem_cons_of_mem _ ho)

/-- C8: `find_element` returns `None` (never throws) exactly when no
visible candidate passes the strategy chain, and `click`/`fill` answer
every failure — target not found, timeout, other dispatch error — with a
`success = False` record carrying the error description; success occurs
exactly when a target was resolved and dispatch succeeded, and the
swallowed clear step never influences the fill result. -/
theorem C8_error_results (desc : String) (outs : List StratOutcome)
    (clear1 clear2 dispatch : DispatchOutcome) :
    (findElement outs = none ↔ ∀ o ∈ outs, o ≠ StratOutcome.visible) ∧
    (findElement outs = none →
      clickAction desc outs dispatch =
        ⟨false, "Element not found: " ++ desc, "click"⟩ ∧
      fillAction desc outs clear1 dispatch =
        ⟨false, "Input not found: " ++ desc, "fill"⟩) ∧
    (∀ i, findElement outs = some i →
      (dispatch = .timeoutErr →
        clickAction desc outs dispatch =
          ⟨false, "Timeout clicking: " ++ desc, "click"⟩ ∧
        fillAction desc outs clear1 dispatch =
          ⟨false, "Timeout filling: " ++ desc, "fill"⟩) ∧
      (∀ m, dispatch = .raise m →
        clickAction desc outs dispatch = ⟨false, m, "click"⟩ ∧
        fillAction desc outs clear1 dispatch = ⟨false, m, "fill"⟩)) ∧
    ((clickAction desc outs dispatch).success = true ↔
      findElement outs ≠ none ∧ dispatch = .ok) ∧
    fillAction desc outs clear1 dispatch = fillAction desc outs clear2 dispatch := by
  refine ⟨findElement_eq_none outs, ?_, ?_, ?_, ?_⟩
  · intro h
    unfold clickAction fillAction
    rw [h]
    exact ⟨rfl, rfl⟩
  · intro i hi
    constructor
    · intro hd
      unfold clickAction fillAction
      rw [hi, hd]
      exact ⟨rfl, rfl⟩
    · intro m hm
      unfold clickAction fillAction
      rw [hi, hm]
      exact ⟨rfl, rfl⟩
  · unfold clickAction
    cases hfe : findElement outs with
    | none =>
      simp only []
      constructor
      · intro hc; exact absurd hc (by simp)
      · intro hc; exact absurd rfl hc.1
    | some i =>
      cases dispatch with
      | ok => simp
      | timeoutErr =>
        constructor
        · intro hc; exact absurd hc (by simp)
        · intro hc; exact DispatchOutcome.noConfusion hc.2
      | raise m =>
        constructor
        · intro hc; exact absurd hc (by simp)
        · intro hc; exact DispatchOutcome.noConfusion hc.2
  · unfold fillAction
    cases hfe : findElement outs with
    | none => rfl
    | some i =>
      cases dispatch with
      | ok => rfl
      | timeoutErr => rfl
      | raise m => rfl

/-- Witness for `C8_error_results`: a not-found click and a timed-out
click on concrete strategy outcomes. -/
theorem C8_error_results_witness :
    clickAction ("Save") [.raises, .notVisible] .timeoutErr =
      ⟨false, "Element not found: " ++ ("Save"), "click"⟩ ∧
    clickAction ("Save") [.raises, .visible] .timeoutErr =
      ⟨false, "Timeout clicking: " ++ ("Save"), "click"⟩ :=
  ⟨((C8_error_results ("Save") [.raises, .notVisible] .ok .ok .timeoutErr).2.1
      (by decide)).1,
   (((C8_error_results ("Save") [.raises, .visible] .ok .ok .timeoutErr).2.2.1 1
      (by decide)).1 rfl).1⟩

end Softlight
